import Mathlib

/-!
Verification of the Bungee grain request/timing protocol and streaming adapter.

The development shallowly embeds the timing arithmetic of `src/Timing.cpp` and
the streaming bookkeeping of `bungee/Stream.h`:

* C++ `double` values are modelled exactly, as a rational or the quiet-NaN
  sentinel (type `D`); the timing code never produces infinities on its
  supported domain, so they are not modelled.
* C++ `int`/`int64_t` arithmetic is modelled on `ℤ`, with division as
  `Int.tdiv` (C++ `/` truncates toward zero).
* The helpers that live in headers outside this repository snapshot
  (`log2.h`, `Resample.h`, `Modes.h`) are modelled from the description given in the specification; each such definition is marked `Modelled from the spec`.
-/

namespace Bungee

/-- Model of a C++ double as used by the timing code: either the quiet-NaN
sentinel or a finite value, represented exactly as a rational number. -/
inductive D where
  | nan : D
  | fin : ℚ → D
deriving DecidableEq

/-- std::isnan. -/
def D.isNan : D → Bool
  | .nan => true
  | .fin _ => false

/-- Double addition; NaN propagates. -/
def D.add : D → D → D
  | .fin a, .fin b => .fin (a + b)
  | _, _ => .nan

/-- Double subtraction; NaN propagates. -/
def D.sub : D → D → D
  | .fin a, .fin b => .fin (a - b)
  | _, _ => .nan

/-- Double multiplication; NaN propagates. -/
def D.mul : D → D → D
  | .fin a, .fin b => .fin (a * b)
  | _, _ => .nan

/-- C++ comparison `x > y` on doubles: false whenever either operand is NaN. -/
def D.gt : D → D → Bool
  | .fin a, .fin b => decide (b < a)
  | _, _ => false

/-- Modelled from the spec: `ResampleMode` is declared in `Modes.h`, which is
not part of this source snapshot. The spec describes it as "enumerated
strategy for intra-grain resampling quality/cost trade-off"; the timing
arithmetic treats the value opaquely, so it is modelled as a plain index. -/
abbrev ResampleMode := ℕ

/-- Stretcher audio sample rates in Hz (Bungee.h). -/
structure SampleRates where
  input : ℤ
  output : ℤ
deriving DecidableEq

/-- Per-grain request descriptor (Bungee.h). -/
structure Request where
  position : D
  speed : D
  pitch : D
  reset : Bool
  resampleMode : ResampleMode
deriving DecidableEq

/-- Modelled from the spec: `log2<true>` comes from `log2.h`, which is not part
of this source snapshot; the spec states the constructor uses
`floor(log2(sampleRates.input))`. -/
def log2floor (n : ℤ) : ℤ := (Nat.log 2 n.toNat : ℤ)

/-- Derived, process-lifetime-constant timing state (Timing.h/Timing.cpp). -/
structure Timing where
  log2SynthesisHop : ℤ
  sampleRates : SampleRates
deriving DecidableEq

/-- Timing.cpp line 22. -/
def maxPitchOctaves : ℤ := 2

/-- Timing constructor, Timing.cpp lines 15-19. -/
def Timing.construct (sampleRates : SampleRates) (log2SynthesisHopAdjust : ℤ) : Timing :=
  { log2SynthesisHop := log2floor sampleRates.input - 6 + log2SynthesisHopAdjust
    sampleRates := sampleRates }

/-- Timing::maxInputFrameCount, Timing.cpp lines 25-29. The `int64_t` shift is
the exact product with a power of two on the supported (non-overflowing)
range, and C++ `/` truncates toward zero, hence `Int.tdiv`. -/
def Timing.maxInputFrameCount (t : Timing) : ℤ :=
  Int.tdiv (t.sampleRates.input * 2 ^ (maxPitchOctaves + t.log2SynthesisHop + 3).toNat)
    t.sampleRates.output + 1

/-- Timing::maxOutputFrameCount, Timing.cpp lines 31-35. -/
def Timing.maxOutputFrameCount (t : Timing) : ℤ :=
  Int.tdiv (t.sampleRates.output * 2 ^ (maxPitchOctaves + t.log2SynthesisHop).toNat)
    t.sampleRates.input + 1

/-- Modelled from the spec: `Resample::Operations().setup` comes from
`Resample.h`, which is not part of this source snapshot. The spec describes it
as "the external resampling-mode lookup keyed on `sampleRates`,
`request.pitch`, `request.resampleMode`" yielding a resampling-ratio factor;
it is modelled as an arbitrary total function producing that factor. -/
def ResampleSetup : Type := SampleRates → D → ResampleMode → ℚ

/-- Timing::calculateInputHop, Timing.cpp lines 37-41:
`(1 << log2SynthesisHop) * setup(...) * request.speed`. -/
def Timing.calculateInputHop (setup : ResampleSetup) (t : Timing) (r : Request) : D :=
  D.mul
    (D.fin (((2 ^ t.log2SynthesisHop.toNat : ℤ) : ℚ) * setup t.sampleRates r.pitch r.resampleMode))
    r.speed

/-- Timing::preroll, Timing.cpp lines 43-47. -/
def Timing.preroll (setup : ResampleSetup) (t : Timing) (r : Request) : Request :=
  { r with position := r.position.sub (t.calculateInputHop setup r), reset := true }

/-- Timing::next, Timing.cpp lines 49-56. -/
def Timing.next (setup : ResampleSetup) (t : Timing) (r : Request) : Request :=
  if r.speed.isNan = false ∧ r.position.isNan = false then
    { r with position := r.position.add (t.calculateInputHop setup r), reset := false }
  else r

/-- Input chunk frame offsets (Bungee.h); `end_` models the C++ field `end`. -/
structure InputChunk where
  begin : ℤ
  end_ : ℤ
deriving DecidableEq

/-- Offset bookkeeping of Stream::InputBuffer (Stream.h lines 20-31):
the absolute sliding-window offsets `begin`/`end`, the capacity
`channelStride`, and the `inputChunk` of the current grain. -/
structure InputBuffer where
  channelStride : ℤ
  begin : ℤ
  end_ : ℤ
  inputChunk : InputChunk
deriving DecidableEq

/-- Stream::InputBuffer::append, Stream.h lines 40-77: the `begin`/`end`
bookkeeping. In the first branch the retained tail is slid down to start at
`inputChunk.begin` and `discard` stays 0; otherwise the window resynchronises
at `end` and discards `min(inputChunk.begin - begin, inputSampleCount)`
incoming samples. Sample storage is addressed relative to `begin`, so the
bookkeeping determines the invariants. -/
def InputBuffer.append (b : InputBuffer) (inputSampleCount : ℤ) : InputBuffer :=
  if b.inputChunk.begin < b.end_ then
    { b with
      begin := if b.begin < b.inputChunk.begin then b.inputChunk.begin else b.begin
      end_ := b.end_ + inputSampleCount }
  else
    { b with
      begin := b.end_ + min (b.inputChunk.begin - b.begin) inputSampleCount
      end_ := b.end_ + inputSampleCount }

/-- Stream::InputBuffer::analyseGrain, Stream.h lines 84-90: the method is
const (it moves no samples); it forwards to `stretcher.analyseGrain` the
triple (pointer offset from `buffer.data()`, muteHead, muteTail). -/
def InputBuffer.analyseGrainArgs (b : InputBuffer) : ℤ × ℤ × ℤ :=
  (-(b.begin - b.inputChunk.begin), b.begin - b.inputChunk.begin, b.inputChunk.end_ - b.end_)

/-- The sample the DSP core reads at index `k` of the pointer forwarded by
`analyseGrain`, when the physical storage of the window holds `data` (`data j` is
the sample at slot `j`, slot 0 holding absolute frame `begin`). -/
def InputBuffer.analyseView (b : InputBuffer) (data : ℤ → ℚ) (k : ℤ) : ℚ :=
  data (k + b.analyseGrainArgs.1)

/-- std::round on the exact double model: nearest integer, halfway cases
rounded away from zero. -/
def cround (x : ℚ) : ℤ := if x < 0 then -⌊-x + 1 / 2⌋ else ⌊x + 1 / 2⌋

/-- Output accounting of one Stream::process call, Stream.h lines 127-170:
`samplesNeeded += outputSampleCount` (line 127); the rendering loop exits
exactly when `sampleCounter == std::round(samplesNeeded)` (line 130); then
`samplesNeeded -= sampleCounter` (line 169). Returns the pair
(samples rendered by this call, accumulator carried into the next call). -/
def processEmit (samplesNeeded outputSampleCount : ℚ) : ℤ × ℚ :=
  (cround (samplesNeeded + outputSampleCount),
    samplesNeeded + outputSampleCount - cround (samplesNeeded + outputSampleCount))

/-- Per-call rendered sample counts over a run of Stream::process calls,
starting from accumulator state `carry` (a fresh Stream has
`samplesNeeded = 0`, Stream.h line 103). -/
def runEmits : ℚ → List ℚ → List ℤ
  | _, [] => []
  | carry, c :: cs => (processEmit carry c).1 :: runEmits (processEmit carry c).2 cs

/-- The `samplesNeeded` accumulator left after a run of Stream::process calls. -/
def runCarry : ℚ → List ℚ → ℚ
  | carry, [] => carry
  | carry, c :: cs => runCarry (processEmit carry c).2 cs

/-- The grain position computed in Stream::process, Stream.h lines 141-145:
`endPosition - maxInputFrameCount / 2 - inputSampleCount * num / den` with
`den = round(outputSampleCount)` and `num = den - sampleCounter`;
`maxInputFrameCount / 2` is C++ integer division. -/
def grainPosition (endPosition maxFrameCount inputSampleCount sampleCounter : ℤ)
    (outputSampleCount : ℚ) : ℚ :=
  (endPosition : ℚ) - ((Int.tdiv maxFrameCount 2 : ℤ) : ℚ) -
    (inputSampleCount : ℚ) * (((cround outputSampleCount : ℤ) : ℚ) - (sampleCounter : ℚ)) /
      ((cround outputSampleCount : ℤ) : ℚ)

/-- The request update when a new grain is specified, Stream.h lines 146-147:
`request.reset = !(position > request.position); request.position = position`. -/
def specifyUpdate (r : Request) (position : ℚ) : Request :=
  { r with reset := !(D.gt (D.fin position) r.position), position := D.fin position }

/-- C++ truncating division agrees with floor division on nonnegative operands. -/
theorem tdiv_eq_ediv_of_nonneg (a b : ℤ) (ha : 0 ≤ a) (hb : 0 ≤ b) : Int.tdiv a b = a / b :=
  Int.tdiv_eq_ediv ha hb

/-- Truncating division of nonnegative operands is nonnegative. -/
theorem tdiv_nonneg_of_nonneg (a b : ℤ) (ha : 0 ≤ a) (hb : 0 ≤ b) : 0 ≤ Int.tdiv a b := by
  rw [tdiv_eq_ediv_of_nonneg a b ha hb]
  exact Int.ediv_nonneg ha hb

/-- C10: Timing::preroll and Timing::next mutate only the position and reset
fields of the request: speed, pitch and resampleMode are unchanged by both
operations (and the Timing value itself, a const receiver modelled here as an
unreturned argument, is never modified). -/
theorem timing_preroll_next_frame_effect (setup : ResampleSetup) (t : Timing) (r : Request) :
    ((t.preroll setup r).speed = r.speed ∧ (t.preroll setup r).pitch = r.pitch ∧
      (t.preroll setup r).resampleMode = r.resampleMode) ∧
    ((t.next setup r).speed = r.speed ∧ (t.next setup r).pitch = r.pitch ∧
      (t.next setup r).resampleMode = r.resampleMode) := by
  refine ⟨⟨rfl, rfl, rfl⟩, ?_⟩
  unfold Timing.next
  split <;> exact ⟨rfl, rfl, rfl⟩

/-- C4: if both request.speed and request.position are finite, Timing::next
adds calculateInputHop(request) to request.position and clears reset; if
either is NaN, request.position is left unchanged. -/
theorem timing_next_spec (setup : ResampleSetup) (t : Timing) (r : Request) :
    (∀ s p : ℚ, r.speed = D.fin s → r.position = D.fin p →
      t.next setup r =
        { r with position := r.position.add (t.calculateInputHop setup r), reset := false }) ∧
    ((r.speed = D.nan ∨ r.position = D.nan) → (t.next setup r).position = r.position) := by
  constructor
  · intro s p hs hp
    have hcond : r.speed.isNan = false ∧ r.position.isNan = false := by
      constructor
      · rw [hs]; rfl
      · rw [hp]; rfl
    unfold Timing.next
    rw [if_pos hcond]
  · intro h
    have hcond : ¬(r.speed.isNan = false ∧ r.position.isNan = false) := by
      rcases h with h | h <;> rw [h] <;> simp [D.isNan]
    unfold Timing.next
    rw [if_neg hcond]

/-- Witness for C4: a concrete request with finite speed and position. -/
theorem timing_next_spec_witness :
    (let r : Request :=
      { position := D.fin 10, speed := D.fin 1, pitch := D.fin 1, reset := true,
        resampleMode := 0 }
     let t := Timing.construct { input := 64, output := 64 } 0
     r.speed = D.fin 1 ∧ r.position = D.fin 10 ∧
      t.next (fun _ _ _ => 1) r =
        { r with
            position := r.position.add (t.calculateInputHop (fun _ _ _ => 1) r),
            reset := false }) :=
  ⟨rfl, rfl, (timing_next_spec (fun _ _ _ => 1) _ _).1 1 10 rfl rfl⟩

/-- C5: for a request with finite position and non-NaN speed, preroll followed
by next, with speed, pitch and resampleMode unchanged between the two calls
(they are carried through the record untouched), returns request.position to
its value before the preroll. -/
theorem timing_preroll_next_roundtrip (setup : ResampleSetup) (t : Timing) (r : Request)
    (p : ℚ) (hp : r.position = D.fin p) (hs : r.speed.isNan = false) :
    (t.next setup (t.preroll setup r)).position = D.fin p := by
  cases hsp : r.speed with
  | nan => rw [hsp] at hs; simp [D.isNan] at hs
  | fin s =>
    simp only [Timing.preroll, Timing.next, Timing.calculateInputHop, hp, hsp, D.sub, D.mul,
      D.isNan, D.add]
    norm_num

/-- Witness for C5: round-trip at a concrete request. -/
theorem timing_preroll_next_roundtrip_witness :
    (let r : Request :=
      { position := D.fin 10, speed := D.fin 1, pitch := D.fin 1, reset := false,
        resampleMode := 0 }
     let t := Timing.construct { input := 64, output := 64 } 0
     r.position = D.fin 10 ∧ r.speed.isNan = false ∧
      (t.next (fun _ _ _ => 1) (t.preroll (fun _ _ _ => 1) r)).position = D.fin 10) :=
  ⟨rfl, rfl, timing_preroll_next_roundtrip (fun _ _ _ => 1) _ _ 10 rfl rfl⟩

/-- C6: construction computes log2SynthesisHop = floor(log2(input)) - 6 +
adjust, maxPitchOctaves = 2, and maxInputFrameCount/maxOutputFrameCount equal
the spec formulas, whose shift-then-divide is integer (floor) division here
because the operands are nonnegative. -/
theorem timing_construction_formulas (sr : SampleRates) (adj : ℤ)
    (hin : 0 < sr.input) (hout : 0 < sr.output) :
    maxPitchOctaves = 2 ∧
    (Timing.construct sr adj).log2SynthesisHop = log2floor sr.input - 6 + adj ∧
    (Timing.construct sr adj).maxInputFrameCount =
      sr.input * 2 ^ (maxPitchOctaves + (Timing.construct sr adj).log2SynthesisHop + 3).toNat /
        sr.output + 1 ∧
    (Timing.construct sr adj).maxOutputFrameCount =
      sr.output * 2 ^ (maxPitchOctaves + (Timing.construct sr adj).log2SynthesisHop).toNat /
        sr.input + 1 := by
  refine ⟨rfl, rfl, ?_, ?_⟩ <;>
    simp only [Timing.construct, Timing.maxInputFrameCount, Timing.maxOutputFrameCount]
  · rw [tdiv_eq_ediv_of_nonneg _ _ (by positivity) (le_of_lt hout)]
  · rw [tdiv_eq_ediv_of_nonneg _ _ (by positivity) (le_of_lt hin)]

/-- Witness for C6: 64 Hz in and out, adjustment 0. -/
theorem timing_construction_formulas_witness :
    (let sr : SampleRates := { input := 64, output := 64 }
     (0 : ℤ) < sr.input ∧ (0 : ℤ) < sr.output ∧
      (maxPitchOctaves = 2 ∧
       (Timing.construct sr 0).log2SynthesisHop = log2floor sr.input - 6 + 0 ∧
       (Timing.construct sr 0).maxInputFrameCount =
         sr.input * 2 ^ (maxPitchOctaves + (Timing.construct sr 0).log2SynthesisHop + 3).toNat /
           sr.output + 1 ∧
       (Timing.construct sr 0).maxOutputFrameCount =
         sr.output * 2 ^ (maxPitchOctaves + (Timing.construct sr 0).log2SynthesisHop).toNat /
           sr.input + 1)) :=
  ⟨by norm_num, by norm_num, timing_construction_formulas _ 0 (by norm_num) (by norm_num)⟩

/-- C7: for positive sample rates the constructed frame-count bounds are
positive, maxInputFrameCount is monotone non-decreasing in the input rate with
the output rate fixed, and maxOutputFrameCount is monotone non-decreasing in
the output rate with the input rate fixed (the synthesis hop being
re-derived from the input rate in each construction). -/
theorem timing_frame_count_bounds (sr : SampleRates) (adj : ℤ)
    (hin : 0 < sr.input) (hout : 0 < sr.output) :
    0 < (Timing.construct sr adj).maxInputFrameCount ∧
    0 < (Timing.construct sr adj).maxOutputFrameCount ∧
    (∀ input2 : ℤ, sr.input ≤ input2 →
      (Timing.construct sr adj).maxInputFrameCount ≤
        (Timing.construct { input := input2, output := sr.output } adj).maxInputFrameCount) ∧
    (∀ output2 : ℤ, sr.output ≤ output2 →
      (Timing.construct sr adj).maxOutputFrameCount ≤
        (Timing.construct { input := sr.input, output := output2 } adj).maxOutputFrameCount) := by
  have hlog : ∀ a b : ℤ, a ≤ b → log2floor a ≤ log2floor b := by
    intro a b hab
    exact Nat.cast_le.mpr (Nat.log_mono_right (Int.toNat_le_toNat hab))
  refine ⟨?_, ?_, ?_, ?_⟩
  · have h := tdiv_nonneg_of_nonneg
      ((Timing.construct sr adj).sampleRates.input *
        2 ^ (maxPitchOctaves + (Timing.construct sr adj).log2SynthesisHop + 3).toNat)
      (Timing.construct sr adj).sampleRates.output (by positivity) (le_of_lt hout)
    unfold Timing.maxInputFrameCount
    omega
  · have h := tdiv_nonneg_of_nonneg
      ((Timing.construct sr adj).sampleRates.output *
        2 ^ (maxPitchOctaves + (Timing.construct sr adj).log2SynthesisHop).toNat)
      (Timing.construct sr adj).sampleRates.input (by positivity) (le_of_lt hin)
    unfold Timing.maxOutputFrameCount
    omega
  · intro input2 h2
    have hin2 : (0 : ℤ) < input2 := lt_of_lt_of_le hin h2
    simp only [Timing.construct, Timing.maxInputFrameCount]
    have hexp : (maxPitchOctaves + (log2floor sr.input - 6 + adj) + 3).toNat ≤
        (maxPitchOctaves + (log2floor input2 - 6 + adj) + 3).toNat := by
      have := hlog sr.input input2 h2
      exact Int.toNat_le_toNat (by omega)
    have hnum : sr.input * 2 ^ (maxPitchOctaves + (log2floor sr.input - 6 + adj) + 3).toNat ≤
        input2 * 2 ^ (maxPitchOctaves + (log2floor input2 - 6 + adj) + 3).toNat := by
      apply mul_le_mul h2 (pow_le_pow_right₀ (by norm_num) hexp) (by positivity) (le_of_lt hin2)
    rw [tdiv_eq_ediv_of_nonneg _ _ (mul_nonneg (le_of_lt hin) (by positivity)) (le_of_lt hout),
      tdiv_eq_ediv_of_nonneg _ _ (mul_nonneg (le_of_lt hin2) (by positivity)) (le_of_lt hout)]
    have := Int.ediv_le_ediv hout hnum
    omega
  · intro output2 h2
    simp only [Timing.construct, Timing.maxOutputFrameCount]
    have hnum : sr.output * 2 ^ (maxPitchOctaves + (log2floor sr.input - 6 + adj)).toNat ≤
        output2 * 2 ^ (maxPitchOctaves + (log2floor sr.input - 6 + adj)).toNat := by
      apply mul_le_mul_of_nonneg_right h2 (by positivity)
    rw [tdiv_eq_ediv_of_nonneg _ _ (mul_nonneg (le_of_lt hout) (by positivity)) (le_of_lt hin),
      tdiv_eq_ediv_of_nonneg _ _ (mul_nonneg (le_of_lt (lt_of_lt_of_le hout h2)) (by positivity))
        (le_of_lt hin)]
    have := Int.ediv_le_ediv hin hnum
    omega

/-- Witness for C7: 64 Hz in and out, adjustment 0. -/
theorem timing_frame_count_bounds_witness :
    (let sr : SampleRates := { input := 64, output := 64 }
     (0 : ℤ) < sr.input ∧ (0 : ℤ) < sr.output ∧
      (0 < (Timing.construct sr 0).maxInputFrameCount ∧
       0 < (Timing.construct sr 0).maxOutputFrameCount ∧
       (∀ input2 : ℤ, sr.input ≤ input2 →
         (Timing.construct sr 0).maxInputFrameCount ≤
           (Timing.construct { input := input2, output := sr.output } 0).maxInputFrameCount) ∧
       (∀ output2 : ℤ, sr.output ≤ output2 →
         (Timing.construct sr 0).maxOutputFrameCount ≤
           (Timing.construct { input := sr.input, output := output2 } 0).maxOutputFrameCount))) :=
  ⟨by norm_num, by norm_num, timing_frame_count_bounds _ 0 (by norm_num) (by norm_num)⟩

/-- C3 as stated fails on the code: with the buffered span already at full
capacity and an input chunk that overlaps the buffered data but begins before
the window (so the window is not slid forward and nothing is discarded),
appending an in-budget block overflows the capacity. Concretely: capacity
15 = maxInputFrameCount 10 + maxInputSampleCount 5, window [0, 15),
inputChunk [-1, 9) (span 10 ≤ 10), appending 5 samples yields window [0, 20)
with 20 - 0 > 15. -/
theorem inputBuffer_append_invariant_cex :
    (let b : InputBuffer :=
      { channelStride := 15, begin := 0, end_ := 15, inputChunk := { begin := -1, end_ := 9 } }
     b.channelStride = 10 + 5 ∧
      (0 : ℤ) ≤ 5 ∧ (5 : ℤ) ≤ 5 ∧
      b.inputChunk.begin ≤ b.inputChunk.end_ ∧
      b.inputChunk.end_ - b.inputChunk.begin ≤ 10 ∧
      b.begin ≤ b.end_ ∧ b.end_ - b.begin ≤ b.channelStride ∧
      ¬((b.append 5).begin ≤ (b.append 5).end_ ∧
        (b.append 5).end_ - (b.append 5).begin ≤ b.channelStride)) := by
  decide

/-- C3 (amended): with the additional protocol hypothesis that the buffered
data does not extend past the end of the current chunk (end ≤ inputChunk.end, the
state in which the grain still awaits samples at its tail), append preserves
the sliding-window invariants begin ≤ end and end - begin ≤ capacity,
whenever the appended count is at most maxInputSampleCount and the chunk
respects the grain-protocol bounds. -/
theorem inputBuffer_append_invariant (b : InputBuffer)
    (maxInputFrameCount maxInputSampleCount n : ℤ)
    (hcap : b.channelStride = maxInputFrameCount + maxInputSampleCount)
    (hn0 : 0 ≤ n) (hn : n ≤ maxInputSampleCount)
    (hchunk : b.inputChunk.begin ≤ b.inputChunk.end_)
    (hspan : b.inputChunk.end_ - b.inputChunk.begin ≤ maxInputFrameCount)
    (htail : b.end_ ≤ b.inputChunk.end_)
    (hbe : b.begin ≤ b.end_) (_hfill : b.end_ - b.begin ≤ b.channelStride) :
    (b.append n).begin ≤ (b.append n).end_ ∧
      (b.append n).end_ - (b.append n).begin ≤ b.channelStride := by
  simp only [InputBuffer.append]
  split_ifs <;> simp <;> omega

/-- Witness for C3 (amended) at a concrete buffer state. -/
theorem inputBuffer_append_invariant_witness :
    (let b : InputBuffer :=
      { channelStride := 15, begin := 0, end_ := 10, inputChunk := { begin := 2, end_ := 12 } }
     b.channelStride = 10 + 5 ∧ (0 : ℤ) ≤ 5 ∧ (5 : ℤ) ≤ 5 ∧
      b.inputChunk.begin ≤ b.inputChunk.end_ ∧ b.inputChunk.end_ - b.inputChunk.begin ≤ 10 ∧
      b.end_ ≤ b.inputChunk.end_ ∧ b.begin ≤ b.end_ ∧ b.end_ - b.begin ≤ b.channelStride ∧
      ((b.append 5).begin ≤ (b.append 5).end_ ∧
        (b.append 5).end_ - (b.append 5).begin ≤ b.channelStride)) :=
  ⟨rfl, by decide, by decide, by decide, by decide, by decide, by decide, by decide,
    inputBuffer_append_invariant _ 10 5 5 rfl (by decide) (by decide) (by decide) (by decide)
      (by decide) (by decide) (by decide)⟩

/-- C9: analyseGrain forwards muteHead = begin - inputChunk.begin and
muteTail = inputChunk.end - end in the absolute frame coordinates of the window,
with the data pointer offset backward by muteHead frames from the buffer
start; the const method copies and moves nothing, so the view the DSP core
reads at chunk-relative index k is exactly the sample slot holding absolute
frame inputChunk.begin + k, in place. -/
theorem inputBuffer_analyseGrain_args (b : InputBuffer) (data : ℤ → ℚ) :
    b.analyseGrainArgs =
      (-(b.begin - b.inputChunk.begin), b.begin - b.inputChunk.begin,
        b.inputChunk.end_ - b.end_) ∧
    (∀ k : ℤ, b.analyseView data k = data ((b.inputChunk.begin + k) - b.begin)) := by
  refine ⟨rfl, fun k => ?_⟩
  unfold InputBuffer.analyseView InputBuffer.analyseGrainArgs
  congr 1
  ring

/-- C8: when Stream::process specifies a new grain, reset is set exactly when
the newly computed grain position is not strictly greater than the previous
request.position; with the NaN sentinel installed by the Stream constructor
as the previous position, the very first grain is specified with reset. -/
theorem stream_specify_reset (r : Request)
    (endPosition maxFrameCount inputSampleCount sampleCounter : ℤ) (outputSampleCount : ℚ) :
    (∀ q : ℚ, r.position = D.fin q →
      ((specifyUpdate r
          (grainPosition endPosition maxFrameCount inputSampleCount sampleCounter
            outputSampleCount)).reset = true ↔
        grainPosition endPosition maxFrameCount inputSampleCount sampleCounter
          outputSampleCount ≤ q)) ∧
    (r.position = D.nan →
      (specifyUpdate r
        (grainPosition endPosition maxFrameCount inputSampleCount sampleCounter
          outputSampleCount)).reset = true) := by
  constructor
  · intro q hq
    simp [specifyUpdate, hq, D.gt, not_lt]
  · intro hq
    simp [specifyUpdate, hq, D.gt]

/-- Witness for C8: the first grain after construction (previous position
NaN) is specified with reset. -/
theorem stream_specify_reset_witness :
    (let r : Request :=
      { position := D.nan, speed := D.fin 1, pitch := D.fin 1, reset := false,
        resampleMode := 0 }
     r.position = D.nan ∧
      (specifyUpdate r (grainPosition 100 20 16 0 16)).reset = true) :=
  ⟨rfl, (stream_specify_reset _ 100 20 16 0 16).2 rfl⟩

/-- Rounding to zero for small negative accumulators. -/
theorem cround_neg_small (x : ℚ) (h1 : -(1/2) < x) (h2 : x < 0) : cround x = 0 := by
  unfold cround
  rw [if_pos h2]
  have hz : ⌊-x + 1/2⌋ = 0 := by
    rw [Int.floor_eq_zero_iff]
    constructor
    · linarith
    · linarith
  rw [hz, neg_zero]

/-- On nonnegative arguments, round-half-away-from-zero is floor(x + 1/2). -/
theorem cround_nonneg (x : ℚ) (h : 0 ≤ x) : cround x = ⌊x + 1/2⌋ := by
  unfold cround
  rw [if_neg (by linarith)]

/-- Rounding step of the process accounting: from an accumulator in
[-1/2, 1/2) and a positive request, the rendered count is the floor or the
ceiling of the request, and the new accumulator is again in [-1/2, 1/2). -/
theorem processEmit_step (carry c : ℚ) (h1 : -(1/2) ≤ carry) (h2 : carry < 1/2) (hc : 0 < c) :
    ((processEmit carry c).1 = ⌊c⌋ ∨ (processEmit carry c).1 = ⌈c⌉) ∧
      -(1/2) ≤ (processEmit carry c).2 ∧ (processEmit carry c).2 < 1/2 := by
  have hp1 : (processEmit carry c).1 = cround (carry + c) := rfl
  have hp2 : (processEmit carry c).2 = carry + c - (cround (carry + c) : ℚ) := rfl
  rw [hp1, hp2]
  by_cases hx : carry + c < 0
  · have h0 : cround (carry + c) = 0 := cround_neg_small _ (by linarith) hx
    have hfc : ⌊c⌋ = 0 := by
      rw [Int.floor_eq_zero_iff]
      constructor
      · linarith
      · linarith
    rw [h0]
    refine ⟨Or.inl hfc.symm, by push_cast; linarith, by push_cast; linarith⟩
  · push_neg at hx
    have h0 : cround (carry + c) = ⌊carry + c + 1/2⌋ := cround_nonneg _ hx
    rw [h0]
    have hle : (⌊carry + c + 1/2⌋ : ℚ) ≤ carry + c + 1/2 := Int.floor_le _
    have hgt : carry + c + 1/2 - 1 < (⌊carry + c + 1/2⌋ : ℚ) := by
      have := Int.sub_one_lt_floor (carry + c + 1/2)
      linarith
    have hfl : ⌊c⌋ ≤ ⌊carry + c + 1/2⌋ := Int.floor_mono (by linarith)
    have hcl : ⌊carry + c + 1/2⌋ ≤ ⌈c⌉ := by
      have h4 : (⌊carry + c + 1/2⌋ : ℚ) < (⌈c⌉ : ℚ) + 1 := by
        have := Int.le_ceil c
        linarith
      have h5 : ⌊carry + c + 1/2⌋ < ⌈c⌉ + 1 := by exact_mod_cast h4
      omega
    have hcf : ⌈c⌉ ≤ ⌊c⌋ + 1 := Int.ceil_le_floor_add_one c
    refine ⟨by omega, by linarith, by linarith⟩

/-- Invariant of a run of process calls with positive requests: the
accumulator stays in [-1/2, 1/2), equals the requested total minus the
rendered total, and there is one rendered count per call. -/
theorem runEmits_invariant (cs : List ℚ) : ∀ carry : ℚ, -(1/2) ≤ carry → carry < 1/2 →
    (∀ x ∈ cs, 0 < x) →
    (-(1/2) ≤ runCarry carry cs ∧ runCarry carry cs < 1/2) ∧
      runCarry carry cs = carry + cs.sum - (((runEmits carry cs).sum : ℤ) : ℚ) ∧
      (runEmits carry cs).length = cs.length := by
  induction cs with
  | nil =>
    intro carry h1 h2 _
    refine ⟨⟨h1, h2⟩, ?_, rfl⟩
    simp [runCarry, runEmits]
  | cons c cs ih =>
    intro carry h1 h2 hpos
    have hc : 0 < c := hpos c (List.mem_cons_self c cs)
    obtain ⟨_, hstep1, hstep2⟩ := processEmit_step carry c h1 h2 hc
    obtain ⟨hbounds, hsum, hlen⟩ := ih (processEmit carry c).2 hstep1 hstep2
      (fun x hx => hpos x (List.mem_cons_of_mem c hx))
    have hp2 : (processEmit carry c).2 = carry + c - ((processEmit carry c).1 : ℚ) := rfl
    refine ⟨?_, ?_, ?_⟩
    · simpa only [runCarry] using hbounds
    · simp only [runCarry, runEmits, List.sum_cons, List.length_cons]
      rw [hsum, hp2]
      push_cast
      ring
    · simp only [runEmits, List.length_cons, hlen]

/-- Splitting a run of process calls at a call boundary. -/
theorem runEmits_append (l1 l2 : List ℚ) : ∀ carry : ℚ,
    runEmits carry (l1 ++ l2) = runEmits carry l1 ++ runEmits (runCarry carry l1) l2 := by
  induction l1 with
  | nil => intro c; simp [runEmits, runCarry]
  | cons a l ih =>
    intro c
    simp only [List.cons_append, runEmits, runCarry, List.cons.injEq, true_and]
    exact ih _

/-- C1: in any completed run of Stream::process calls, each with positive
outputSampleCount, the call after an arbitrary prefix renders exactly
round(samplesNeeded) samples, where samplesNeeded is the fractional
accumulator after adding the outputSampleCount of that call, and that count equals
floor(outputSampleCount) or ceil(outputSampleCount). -/
theorem stream_process_floor_ceil (pre : List ℚ) (c : ℚ)
    (hpos : ∀ x ∈ pre, 0 < x) (hc : 0 < c) :
    runEmits 0 (pre ++ [c]) = runEmits 0 pre ++ [cround (runCarry 0 pre + c)] ∧
      (cround (runCarry 0 pre + c) = ⌊c⌋ ∨ cround (runCarry 0 pre + c) = ⌈c⌉) := by
  obtain ⟨⟨hb1, hb2⟩, -, -⟩ := runEmits_invariant pre 0 (by norm_num) (by norm_num) hpos
  obtain ⟨hor, -, -⟩ := processEmit_step (runCarry 0 pre) c hb1 hb2 hc
  exact ⟨by rw [runEmits_append]; rfl, hor⟩

/-- Witness for C1: two calls of 3/2 samples each; the second call lands on a
carried accumulator of -1/2. -/
theorem stream_process_floor_ceil_witness :
    ((∀ x ∈ [(3 : ℚ)/2], 0 < x) ∧ (0 : ℚ) < 3/2) ∧
      (runEmits 0 ([(3 : ℚ)/2] ++ [(3 : ℚ)/2]) =
          runEmits 0 [(3 : ℚ)/2] ++ [cround (runCarry 0 [(3 : ℚ)/2] + 3/2)] ∧
        (cround (runCarry 0 [(3 : ℚ)/2] + 3/2) = ⌊(3 : ℚ)/2⌋ ∨
          cround (runCarry 0 [(3 : ℚ)/2] + 3/2) = ⌈(3 : ℚ)/2⌉)) :=
  ⟨⟨by norm_num, by norm_num⟩,
    stream_process_floor_ceil [(3 : ℚ)/2] (3/2) (by norm_num) (by norm_num)⟩

/-- C2: across any completed run of Stream::process calls with positive
outputSampleCount the total rendered differs from the total requested by
strictly less than one sample (every prefix of a run being itself a run, this
holds at every call boundary), and the carried accumulator samplesNeeded lies
in [-1/2, 1/2] after the run. -/
theorem stream_process_cumulative_drift (cs : List ℚ) (hpos : ∀ x ∈ cs, 0 < x) :
    |cs.sum - (((runEmits 0 cs).sum : ℤ) : ℚ)| < 1 ∧
      -(1/2) ≤ runCarry 0 cs ∧ runCarry 0 cs ≤ 1/2 := by
  obtain ⟨⟨h1, h2⟩, hsum, -⟩ := runEmits_invariant cs 0 (by norm_num) (by norm_num) hpos
  refine ⟨?_, h1, le_of_lt h2⟩
  rw [abs_lt]
  constructor <;> linarith

/-- Witness for C2: two calls of 1/2 sample each. -/
theorem stream_process_cumulative_drift_witness :
    (let cs : List ℚ := [1/2, 1/2]
     (∀ x ∈ cs, 0 < x) ∧
      (|cs.sum - (((runEmits 0 cs).sum : ℤ) : ℚ)| < 1 ∧
        -(1/2) ≤ runCarry 0 cs ∧ runCarry 0 cs ≤ 1/2)) :=
  ⟨by norm_num, stream_process_cumulative_drift [1/2, 1/2] (by norm_num)⟩

end Bungee
